import Mathlib

/-!
Verification of the MiniMessenger room-scoped messaging core (src/server.py,
with src/stable.py an agreeing variant on the modelled paths).

Shallow embedding notes:
* SQLite tables become Lean lists of records; AUTOINCREMENT ids become
  explicit `next…Id` counters; `CURRENT_TIMESTAMP` becomes a `clock : Nat`
  field (the store's wall clock, nondecreasing over time).
* Python's `room.split(':')`, `str.startswith` and SQLite's numeric
  affinity conversion (a TEXT parameter compared against an INTEGER column
  is first converted when, stripped of surrounding whitespace, it is a
  well-formed signed integer or real literal — so '5', '05', ' 5', '+5',
  '5.0' and '5e0' all match the integer id 5, while '5.5', '0x5' or 'x'
  match no integer id) are modelled by the char-level functions
  `splitColon`, `strStartsWith`, `strToNat?` below, because the core
  `String` library functions do not reduce in the kernel.
* `ORDER BY m.ts ASC` is modelled as a stable insertion sort on the stored
  row order; SQLite delivers the rows of these queries in rowid order before
  sorting, so equal timestamps keep insertion order.
* Fallible code (the uncaught `fetchone()['server_id']` dereference and the
  `UNIQUE(dm_id,user_id)` IntegrityError in `ensure_dm_between`) returns
  `Option`, with `none` marking a raised exception.
-/

namespace Minerium

/-- Models Python `s.split(':')` : accumulate chars until each colon. -/
def splitColonAux : List Char → List Char → List String
  | [], acc => [String.mk acc.reverse]
  | c :: cs, acc =>
    if c = ':' then String.mk acc.reverse :: splitColonAux cs []
    else splitColonAux cs (c :: acc)

def splitColon (s : String) : List String := splitColonAux s.data []

def startsWithSeq : List Char → List Char → Bool
  | [], _ => true
  | _ :: _, [] => false
  | p :: ps, c :: cs => p == c && startsWithSeq ps cs

/-- Models Python `s.startswith(pat)`. -/
def strStartsWith (s pat : String) : Bool := startsWithSeq pat.data s.data

def isDigitChar (c : Char) : Bool := 48 ≤ c.toNat && c.toNat ≤ 57

def digitsToNat (cs : List Char) : Nat := cs.foldl (fun a c => a * 10 + (c.toNat - 48)) 0

/-- The whitespace characters SQLite tolerates around a numeric literal. -/
def sqliteWs (c : Char) : Bool :=
  c == ' ' || c == '\t' || c == '\n' || c == '\x0d' || c == '\x0b' || c == '\x0c'

/-- An optional leading sign; returns (isNegative, rest). -/
def parseSign : List Char → Bool × List Char
  | '+' :: cs => (false, cs)
  | '-' :: cs => (true, cs)
  | cs => (false, cs)

/-- Longest digit run at the head; returns (digits, rest). -/
def spanDigits : List Char → List Char × List Char
  | [] => ([], [])
  | c :: cs =>
    if isDigitChar c then
      let (ds, rest) := spanDigits cs
      (c :: ds, rest)
    else ([], c :: cs)

/-- The mantissa of a SQLite numeric literal: `D+ [ . D* ]` or `. D+`.
Returns (digits of the integer and fractional parts read as one number,
number of fractional digits, rest). -/
def parseMantissa (cs : List Char) : Option (Nat × Nat × List Char) :=
  let (ip, rest1) := spanDigits cs
  match rest1 with
  | '.' :: rest2 =>
    let (fp, rest3) := spanDigits rest2
    if ip.isEmpty && fp.isEmpty then none
    else some (digitsToNat (ip ++ fp), fp.length, rest3)
  | _ =>
    if ip.isEmpty then none else some (digitsToNat ip, 0, rest1)

/-- An optional exponent part `(e|E) [+|-] D+`; a bare or malformed
exponent makes the whole literal ill-formed. -/
def parseExp : List Char → Option (Int × List Char)
  | 'e' :: cs | 'E' :: cs =>
    let (sgn, cs2) := parseSign cs
    let (ds, cs3) := spanDigits cs2
    if ds.isEmpty then none
    else some (if sgn then -(digitsToNat ds : Int) else (digitsToNat ds : Int), cs3)
  | cs => some (0, cs)

/-- Decompose a string as a well-formed SQLite numeric literal (surrounding
whitespace allowed, optional sign, mantissa, optional exponent, nothing
else): (negative, mantissa digits, fractional-digit count, exponent). -/
def sqliteNumLit? (s : String) : Option (Bool × Nat × Nat × Int) :=
  let cs := ((s.data.dropWhile sqliteWs).reverse.dropWhile sqliteWs).reverse
  let (neg, cs1) := parseSign cs
  match parseMantissa cs1 with
  | none => none
  | some (mant, frac, rest) =>
    match parseExp rest with
    | none => none
    | some (e, rest2) =>
      if rest2.isEmpty then some (neg, mant, frac, e) else none

/-- The integer id that a TEXT parameter matches against an INTEGER id
column under SQLite's numeric affinity: the text converts iff it is a
well-formed signed integer or real literal (surrounding whitespace
allowed), and the converted value matches the id n exactly when it equals
n — so '5', '05', ' 5', '+5', '5.0' and '5e0' all yield `some 5`, while
'5.5', '-5', '0x5', '' and 'x' yield `none` (they stay TEXT or denote no
nonnegative integer, and so match no stored id).  The model computes the
value exactly; SQLite's REAL path loses integer precision only beyond
2^53, far above any reachable AUTOINCREMENT id. -/
def strToNat? (s : String) : Option Nat :=
  match sqliteNumLit? s with
  | none => none
  | some (neg, mant, frac, e) =>
    if mant = 0 then some 0
    else if neg then none
    else
      let d : Int := e - (frac : Int)
      if 0 ≤ d then some (mant * 10 ^ d.toNat)
      else if mant % 10 ^ (-d).toNat = 0 then some (mant / 10 ^ (-d).toNat)
      else none

/-- Row of the `users` table (columns used by the core). -/
structure User where
  id : Nat
  username : String
  avatar : Option String
deriving Repr, DecidableEq

/-- Row of the `channels` table. -/
structure Channel where
  id : Nat
  server_id : Nat
deriving Repr, DecidableEq

/-- Row of the `dms` table (columns used by the core). -/
structure Dm where
  id : Nat
  is_group : Bool
deriving Repr, DecidableEq

/-- Row of the `messages` table. -/
structure Message where
  id : Nat
  channel_id : Option Nat
  dm_id : Option Nat
  sender_id : Nat
  content : Option String
  content_type : String
  ts : Nat
  deleted : Bool
deriving Repr, DecidableEq

/-- The persistence store: the tables touched by the messaging core, plus
the AUTOINCREMENT counters and the server-side clock. `server_members` and
`dm_members` are (server_id, user_id) and (dm_id, user_id) pairs. -/
structure State where
  users : List User
  server_members : List (Nat × Nat)
  channels : List Channel
  dms : List Dm
  dm_members : List (Nat × Nat)
  messages : List Message
  nextMessageId : Nat
  nextDmId : Nat
  clock : Nat
deriving Repr, DecidableEq

/-- Parsed room reference (the two wire-level variants). -/
inductive RoomRef where
  | channel (cid : Nat)
  | dm (did : Nat)
deriving Repr, DecidableEq

/-- The room-string parsing shared by `create_and_broadcast_message` and
`history` in server.py: a `server:`-prefixed string must split into exactly
four colon-separated parts (`_, _, _, channel_id = room.split(':')`) — the
second and third parts are never inspected — and a `dm:`-prefixed string
into exactly two.  A wrong arity raises ValueError, which the source
catches (treated as "no room"); the id part reaches the SQL query as TEXT
and, under numeric affinity, matches the integer id `strToNat?` computes
for it — any SQLite-numeric spelling of the id works ('5', '05', '5.0',
' 5', '+5', '5e0'), while text matching no integer id (modelled by
`strToNat?` returning `none`) is observationally "no room", since the id
is only ever used in membership lookups and the insert that follows a
successful lookup stores the converted integer. -/
def parseRoom (room : String) : Option RoomRef :=
  if strStartsWith room "server:" then
    match splitColon room with
    | [_, _, _, cidStr] => (strToNat? cidStr).map RoomRef.channel
    | _ => none
  else if strStartsWith room "dm:" then
    match splitColon room with
    | [_, didStr] => (strToNat? didStr).map RoomRef.dm
    | _ => none
  else none

/-- The query `SELECT 1 FROM server_members sm JOIN channels c ON
sm.server_id = c.server_id WHERE c.id = ? AND sm.user_id = ?`. -/
def memberOfChannelServer (st : State) (cid uid : Nat) : Bool :=
  st.channels.any fun c =>
    c.id == cid && st.server_members.any fun sm => sm.1 == c.server_id && sm.2 == uid

/-- The query `SELECT 1 FROM dm_members WHERE dm_id = ? AND user_id = ?`. -/
def isDmMember (st : State) (did uid : Nat) : Bool :=
  st.dm_members.any fun p => p.1 == did && p.2 == uid

/-- The per-variant membership check of the source. -/
def authorizedFor (st : State) (uid : Nat) : RoomRef → Bool
  | .channel cid => memberOfChannelServer st cid uid
  | .dm did => isDmMember st did uid

/-- `CanPost(userID, roomRef)`: the authorization decision both `Submit`
and `History` compute (parse failure resolves to `false`). -/
def can_post (st : State) (uid : Nat) (room : String) : Bool :=
  match parseRoom room with
  | some ref => authorizedFor st uid ref
  | none => false

/-- Payload of the outbound `message` event. -/
structure MessageEvent where
  id : Nat
  sender_id : Nat
  username : String
  avatar : Option String
  content : String
  content_type : String
  ts : Nat
  deleted : Bool
deriving Repr, DecidableEq

/-- An outbound socket broadcast (`socketio.emit(..., room=room)`). -/
inductive Broadcast where
  | message (room : String) (ev : MessageEvent)
  | message_deleted (room : String) (message_id : Nat)
deriving Repr, DecidableEq

/-- The (channel_id, dm_id) column pair the insert stores. -/
def refIds : RoomRef → Option Nat × Option Nat
  | .channel cid => (some cid, none)
  | .dm did => (none, some did)

/-- server.py `create_and_broadcast_message` (the `Submit` entry point):
empty room/content and unknown sender are silently dropped, then the
membership check gates the insert and the single room-scoped broadcast. -/
def create_and_broadcast_message (st : State) (user_id : Nat)
    (room content content_type : String) : State × Option Broadcast :=
  if room = "" || content = "" then (st, none)
  else
    match st.users.find? fun u => u.id == user_id with
    | none => (st, none)
    | some user =>
      match parseRoom room with
      | none => (st, none)
      | some ref =>
        if authorizedFor st user_id ref then
          let ids := refIds ref
          let mid := st.nextMessageId
          let msg : Message :=
            { id := mid, channel_id := ids.1, dm_id := ids.2, sender_id := user_id,
              content := some content, content_type := content_type,
              ts := st.clock, deleted := false }
          let ev : MessageEvent :=
            { id := mid, sender_id := user_id, username := user.username,
              avatar := user.avatar, content := content,
              content_type := content_type, ts := st.clock, deleted := false }
          ({ st with messages := st.messages ++ [msg], nextMessageId := mid + 1 },
            some (Broadcast.message room ev))
        else (st, none)

/-- One row of the `/history` response. -/
structure HistRow where
  id : Nat
  content : Option String
  content_type : String
  ts : Nat
  deleted : Bool
  sender_id : Nat
  username : String
  avatar : Option String
deriving Repr, DecidableEq

def mkRow (m : Message) (u : User) : HistRow :=
  { id := m.id, content := m.content, content_type := m.content_type, ts := m.ts,
    deleted := m.deleted, sender_id := m.sender_id, username := u.username,
    avatar := u.avatar }

/-- `JOIN users u ON m.sender_id = u.id`: messages whose sender row is
missing are dropped; row order is preserved. -/
def joinUsers (st : State) (l : List Message) : List HistRow :=
  l.filterMap fun m =>
    (st.users.find? fun u => u.id == m.sender_id).map fun u => mkRow m u

def insertRow (r : HistRow) : List HistRow → List HistRow
  | [] => [r]
  | x :: xs => if r.ts ≤ x.ts then r :: x :: xs else x :: insertRow r xs

/-- `ORDER BY m.ts ASC` as a stable insertion sort. -/
def sortRows : List HistRow → List HistRow
  | [] => []
  | r :: rest => insertRow r (sortRows rest)

/-- `SELECT … FROM messages m JOIN users u … WHERE cond ORDER BY m.ts ASC
LIMIT 100`. -/
def historyQuery (st : State) (cond : Message → Bool) : List HistRow :=
  (sortRows (joinUsers st (st.messages.filter cond))).take 100

/-- The WHERE condition of the two history/insert variants. -/
def roomCond : RoomRef → Message → Bool
  | .channel cid => fun m => m.channel_id == some cid
  | .dm did => fun m => m.dm_id == some did

/-- server.py `/history` (the `History` entry point): empty room gives `[]`,
then the same parse/authorize steps as `Submit` gate the bounded query. -/
def historyRows (st : State) (my_id : Nat) (room : String) : List HistRow :=
  if room = "" then []
  else
    match parseRoom room with
    | none => []
    | some ref =>
      if authorizedFor st my_id ref then historyQuery st (roomCond ref) else []

/-- Python truthiness of a nullable integer column. -/
def truthyN : Option Nat → Bool
  | none => false
  | some n => n != 0

/-- server.py `on_delete_message`.  `none` models an uncaught exception
(the `fetchone()['server_id']` dereference when the owning channel row is
missing).  Falsy `user_id`/`message_id` return immediately; an absent
message or a non-sender caller is a silent no-op; otherwise the row is
tombstoned (`deleted = 1, content = NULL, content_type = "text"`) and a
`message_deleted` event is emitted to the resolved room.  Note the source
never checks the `deleted` flag before re-tombstoning. -/
def on_delete_message (st : State) (user_id message_id : Nat) :
    Option (State × Option Broadcast) :=
  if user_id == 0 || message_id == 0 then some (st, none)
  else
    match st.messages.find? fun m => m.id == message_id with
    | none => some (st, none)
    | some msg =>
      if msg.sender_id == user_id then
        let st' : State :=
          { st with messages := st.messages.map fun m =>
              if m.id == message_id then
                { m with deleted := true, content := none, content_type := "text" }
              else m }
        if truthyN msg.channel_id then
          match st.channels.find? fun c => c.id == msg.channel_id.getD 0 with
          | none => none
          | some ch =>
            some (st', some (Broadcast.message_deleted
              ("server:" ++ toString ch.server_id ++ ":channel:"
                ++ toString (msg.channel_id.getD 0)) message_id))
        else if truthyN msg.dm_id then
          some (st', some (Broadcast.message_deleted
            ("dm:" ++ toString (msg.dm_id.getD 0)) message_id))
        else some (st', none)
      else some (st, none)

/-- The in-memory room registry of flask_socketio: (room, session id)
subscription pairs. -/
structure Registry where
  subs : List (String × Nat)
deriving Repr, DecidableEq

/-- flask_socketio `join_room`: idempotent add. -/
def join_room (reg : Registry) (room : String) (sid : Nat) : Registry :=
  if (room, sid) ∈ reg.subs then reg else { subs := reg.subs ++ [(room, sid)] }

/-- server.py `on_join`: `if 'user_id' in session and data.get('room'):
join_room(data['room'])`.  The session user is `none` when not logged in;
the room is `none` when absent and falsy when empty.  No database or
membership check occurs. -/
def on_join (reg : Registry) (sessionUser : Option Nat) (room : Option String)
    (sid : Nat) : Registry :=
  match sessionUser, room with
  | some _, some r => if r = "" then reg else join_room reg r sid
  | _, _ => reg

/-- server.py `ensure_dm_between`: look up a non-group dm having both users
as members and exactly two member rows; otherwise insert a fresh dm row and
two member rows.  `none` models the `UNIQUE(dm_id, user_id)` IntegrityError
(the inserts are plain INSERTs, not INSERT OR IGNORE), after which the
transaction rolls back. -/
def dmPairLook (st : State) (u1 u2 : Nat) (d : Dm) : Bool :=
  !d.is_group && isDmMember st d.id u1 && isDmMember st d.id u2
    && decide ((st.dm_members.filter fun p => p.1 == d.id).length = 2)

def ensure_dm_between (st : State) (u1 u2 : Nat) : Option (State × Nat) :=
  match st.dms.find? (dmPairLook st u1 u2) with
  | some d => some (st, d.id)
  | none =>
    let did := st.nextDmId
    let st1 : State :=
      { st with dms := st.dms ++ [{ id := did, is_group := false }],
                nextDmId := did + 1 }
    if st1.dm_members.any fun p => p.1 == did && p.2 == u1 then none
    else
      let st2 : State := { st1 with dm_members := st1.dm_members ++ [(did, u1)] }
      if st2.dm_members.any fun p => p.1 == did && p.2 == u2 then none
      else some ({ st2 with dm_members := st2.dm_members ++ [(did, u2)] }, did)

/-- Store invariants maintained by the message paths of the source and used
as reachable-state hypotheses: rows are appended with nondecreasing server
timestamps and strictly increasing AUTOINCREMENT ids (never 0); a
tombstoned row has its content cleared and its type reset; a stored
channel reference points at an existing channel row. -/
def MsgInv (st : State) : Prop :=
  List.Pairwise (fun a b : Message => a.ts ≤ b.ts) st.messages ∧
  List.Pairwise (fun a b : Message => a.id < b.id) st.messages ∧
  (∀ m ∈ st.messages, m.id ≠ 0) ∧
  (∀ m ∈ st.messages, m.deleted = true → m.content = none ∧ m.content_type = "text") ∧
  (∀ m ∈ st.messages, ∀ cid, m.channel_id = some cid →
    ∃ ch ∈ st.channels, ch.id = cid)

/-- Store invariants for the dm tables: ids below the AUTOINCREMENT
counter, and at most one non-group dm row matching the exact-pair lookup
for (u1, u2). -/
def DmInv (st : State) (u1 u2 : Nat) : Prop :=
  (∀ d ∈ st.dms, d.id < st.nextDmId) ∧
  (∀ p ∈ st.dm_members, p.1 < st.nextDmId) ∧
  (st.dms.filter (dmPairLook st u1 u2)).length ≤ 1

instance (st : State) : Decidable (MsgInv st) := by
  unfold MsgInv; infer_instance

instance (st : State) (u1 u2 : Nat) : Decidable (DmInv st u1 u2) := by
  unfold DmInv; infer_instance

/-! ### Generic list helper lemmas -/

theorem list_map_id_of {α : Type} {l : List α} {f : α → α} (h : ∀ x ∈ l, f x = x) :
    l.map f = l := by
  induction l with
  | nil => rfl
  | cons a t ih =>
    simp only [List.map_cons]
    rw [h a (List.mem_cons_self a t), ih fun x hx => h x (List.mem_cons_of_mem a hx)]

theorem find?_append_none {α : Type} {l₁ l₂ : List α} {p : α → Bool}
    (h : l₁.find? p = none) : (l₁ ++ l₂).find? p = l₂.find? p := by
  induction l₁ with
  | nil => rfl
  | cons a t ih =>
    have hall := List.find?_eq_none.mp h
    have hpa : ¬ p a := hall a (List.mem_cons_self a t)
    rw [List.cons_append, List.find?_cons_of_neg _ hpa]
    exact ih (List.find?_eq_none.mpr fun x hx => hall x (List.mem_cons_of_mem a hx))

/-- On a list with strictly increasing ids, `find?` by id locates exactly the
given member. -/
theorem find?_by_id_eq {l : List Message} {msg : Message}
    (hp : List.Pairwise (fun a b : Message => a.id < b.id) l) (hm : msg ∈ l) :
    l.find? (fun m => m.id == msg.id) = some msg := by
  induction l with
  | nil => cases hm
  | cons a t ih =>
    obtain ⟨h1, h2⟩ := List.pairwise_cons.mp hp
    rcases List.mem_cons.mp hm with rfl | hmt
    · exact List.find?_cons_of_pos t (by simp)
    · have hlt : a.id < msg.id := h1 msg hmt
      have hne : ¬ (a.id == msg.id) = true := by
        simp only [beq_iff_eq]; omega
      rw [List.find?_cons_of_neg t hne]
      exact ih h2 hmt

/-- On a list with strictly increasing ids, members are determined by id. -/
theorem mem_unique_by_id {l : List Message} {m1 m2 : Message}
    (hp : List.Pairwise (fun a b : Message => a.id < b.id) l)
    (h1 : m1 ∈ l) (h2 : m2 ∈ l) (hid : m1.id = m2.id) : m1 = m2 := by
  induction l with
  | nil => cases h1
  | cons a t ih =>
    obtain ⟨ha, ht⟩ := List.pairwise_cons.mp hp
    rcases List.mem_cons.mp h1 with rfl | h1t
    · rcases List.mem_cons.mp h2 with rfl | h2t
      · rfl
      · exact absurd hid (by have := ha m2 h2t; omega)
    · rcases List.mem_cons.mp h2 with rfl | h2t
      · exact absurd hid (by have := ha m1 h1t; omega)
      · exact ih ht h1t h2t

/-! ### Sort and join lemmas -/

theorem mem_insertRow {r x : HistRow} {l : List HistRow} :
    x ∈ insertRow r l ↔ x = r ∨ x ∈ l := by
  induction l with
  | nil => simp [insertRow]
  | cons a t ih =>
    simp only [insertRow]
    by_cases h : r.ts ≤ a.ts
    · simp [h, List.mem_cons]
    · simp only [if_neg h, List.mem_cons, ih]
      tauto

theorem mem_of_mem_sortRows {x : HistRow} {l : List HistRow}
    (h : x ∈ sortRows l) : x ∈ l := by
  induction l with
  | nil => exact h
  | cons a t ih =>
    simp only [sortRows] at h
    rcases mem_insertRow.mp h with h1 | hx
    · rw [h1]; exact List.mem_cons_self a t
    · exact List.mem_cons_of_mem a (ih hx)

theorem insertRow_of_le {r : HistRow} {l : List HistRow}
    (h : ∀ x ∈ l, r.ts ≤ x.ts) : insertRow r l = r :: l := by
  cases l with
  | nil => rfl
  | cons a t => simp [insertRow, h a (List.mem_cons_self a t)]

/-- The stable sort is the identity on a list that is already nondecreasing
in `ts` — the configuration the store's append-only insert maintains. -/
theorem sortRows_eq_self {l : List HistRow}
    (hp : List.Pairwise (fun a b : HistRow => a.ts ≤ b.ts) l) : sortRows l = l := by
  induction l with
  | nil => rfl
  | cons a t ih =>
    obtain ⟨h1, h2⟩ := List.pairwise_cons.mp hp
    simp only [sortRows, ih h2]
    exact insertRow_of_le h1

theorem mem_joinUsers {st : State} {l : List Message} {r : HistRow} :
    r ∈ joinUsers st l ↔
      ∃ m ∈ l, ∃ u, (st.users.find? fun u' => u'.id == m.sender_id) = some u ∧
        r = mkRow m u := by
  unfold joinUsers
  rw [List.mem_filterMap]
  constructor
  · rintro ⟨m, hm, hf⟩
    rcases Option.map_eq_some'.mp hf with ⟨u, hu, rfl⟩
    exact ⟨m, hm, u, hu, rfl⟩
  · rintro ⟨m, hm, u, hu, rfl⟩
    exact ⟨m, hm, by rw [hu]; rfl⟩

theorem pairwise_joinUsers {st : State} {l : List Message}
    {R : Message → Message → Prop} {S : HistRow → HistRow → Prop}
    (hRS : ∀ m1 m2 u1 u2, R m1 m2 → S (mkRow m1 u1) (mkRow m2 u2))
    (hp : List.Pairwise R l) : List.Pairwise S (joinUsers st l) := by
  induction l with
  | nil => exact List.Pairwise.nil
  | cons a t ih =>
    obtain ⟨h1, h2⟩ := List.pairwise_cons.mp hp
    show List.Pairwise S (joinUsers st (a :: t))
    unfold joinUsers
    rw [List.filterMap_cons]
    cases hfa : (st.users.find? fun u' => u'.id == a.sender_id).map
        fun u => mkRow a u with
    | none => exact ih h2
    | some r0 =>
      refine List.pairwise_cons.mpr ⟨?_, ih h2⟩
      intro r hr
      rcases mem_joinUsers.mp hr with ⟨m, hm, u, hu, rfl⟩
      rcases Option.map_eq_some'.mp hfa with ⟨u0, hu0, rfl⟩
      exact hRS a m u0 u (h1 m hm)

/-- Under the nondecreasing-timestamp invariant the `ORDER BY ts ASC` sort
is the identity, so the bounded query returns the first (oldest) 100 rows
of the room in store order. -/
theorem historyQuery_eq_of_sorted {st : State} {cond : Message → Bool}
    (h1 : List.Pairwise (fun a b : Message => a.ts ≤ b.ts) st.messages) :
    historyQuery st cond = (joinUsers st (st.messages.filter cond)).take 100 := by
  unfold historyQuery
  rw [sortRows_eq_self (pairwise_joinUsers (fun _ _ _ _ h => h) (h1.filter cond))]

/-- Every returned history row comes from a stored message joined with its
sender's user row, with the row fields copied from the message. -/
theorem mem_historyRows {st : State} {uid : Nat} {room : String} {r : HistRow}
    (h : r ∈ historyRows st uid room) :
    ∃ m ∈ st.messages, ∃ u,
      (st.users.find? fun u' => u'.id == m.sender_id) = some u ∧ r = mkRow m u := by
  unfold historyRows at h
  split at h
  · cases h
  · split at h
    · cases h
    · split at h
      · unfold historyQuery at h
        have h2 := mem_of_mem_sortRows (List.take_subset _ _ h)
        rcases mem_joinUsers.mp h2 with ⟨m, hm, u, hu, rfl⟩
        exact ⟨m, List.mem_of_mem_filter hm, u, hu, rfl⟩
      · cases h

/-! ### Silent-drop helpers shared by the authorization claims -/

theorem submit_noop_of_not_can_post {st : State} {uid : Nat}
    {room content ctype : String} (h : can_post st uid room = false) :
    create_and_broadcast_message st uid room content ctype = (st, none) := by
  unfold create_and_broadcast_message
  split
  · rfl
  · split
    · rfl
    · cases hp : parseRoom room with
      | none => simp [hp]
      | some ref =>
        unfold can_post at h
        rw [hp] at h
        have h' : authorizedFor st uid ref = false := h
        simp [hp, h']

theorem history_empty_of_not_can_post {st : State} {uid : Nat} {room : String}
    (h : can_post st uid room = false) : historyRows st uid room = [] := by
  unfold historyRows
  split
  · rfl
  · cases hp : parseRoom room with
    | none => simp [hp]
    | some ref =>
      unfold can_post at h
      rw [hp] at h
      have h' : authorizedFor st uid ref = false := h
      simp [hp, h']

/-! ### Concrete stores used by witnesses and counterexamples -/

/-- A small concrete store: users 1 and 2; server 1 (sole member: user 1)
owning channel 5; non-group dm 7 with members 1 and 2. -/
def stA : State :=
  { users := [{ id := 1, username := "alice", avatar := none },
              { id := 2, username := "bob", avatar := none }],
    server_members := [(1, 1)],
    channels := [{ id := 5, server_id := 1 }],
    dms := [{ id := 7, is_group := false }],
    dm_members := [(7, 1), (7, 2)],
    messages := [], nextMessageId := 1, nextDmId := 8, clock := 10 }

/-- `stA` with a dangling dm membership row for a user id (99) that has no
users row — the situation `delete_account` leaves behind. -/
def stB : State := { stA with dm_members := stA.dm_members ++ [(7, 99)] }

/-- `stA` with one ordinary message (id 1) from user 1 in dm 7. -/
def stMsg : State := { stA with
  messages := [{ id := 1, channel_id := none, dm_id := some 7, sender_id := 1,
                 content := some "hi", content_type := "text", ts := 3,
                 deleted := false }],
  nextMessageId := 2 }

/-- The message row stored in `stMsg`. -/
def msgHi : Message :=
  { id := 1, channel_id := none, dm_id := some 7, sender_id := 1,
    content := some "hi", content_type := "text", ts := 3, deleted := false }

/-! ### Claim C1 -/

/-- Claim C1: for every user and every room reference for which the user
has no membership path — `can_post` is false: no server membership for a
channel room, no dm_members row for a dm room, and no room at all for an
unparseable reference — `Submit` persists no message row and broadcasts
nothing, and `History` returns the empty sequence. -/
theorem submit_and_history_reject_nonmembers (st : State) (uid : Nat)
    (room content ctype : String) (h : can_post st uid room = false) :
    create_and_broadcast_message st uid room content ctype = (st, none) ∧
      historyRows st uid room = [] :=
  ⟨submit_noop_of_not_can_post h, history_empty_of_not_can_post h⟩

theorem submit_and_history_reject_nonmembers_witness :
    can_post stA 2 "server:1:channel:5" = false ∧
      (create_and_broadcast_message stA 2 "server:1:channel:5" "hi" "text"
          = (stA, none) ∧
        historyRows stA 2 "server:1:channel:5" = []) :=
  ⟨by decide,
    submit_and_history_reject_nonmembers stA 2 "server:1:channel:5" "hi" "text"
      (by decide)⟩

/-! ### Claim C2 -/

/-- Claim C2 counterexample: user 3 has no membership path to room "dm:7"
(`can_post` is false), yet the join intent subscribes the session anyway —
`on_join` consults no authorization rule, so a non-member's join changes
the room's subscriber set. -/
theorem join_unauthorized_counterexample :
    can_post stA 3 "dm:7" = false ∧
      on_join { subs := [] } (some 3) (some "dm:7") 42
        = { subs := [("dm:7", 42)] } := by
  constructor
  · decide
  · decide

/-- Claim C2 (amended): joining is NOT gated by the posting authorization
rule.  Any logged-in session supplying a non-empty room string is
(idempotently) subscribed to that room regardless of `CanPost`; in
particular a non-member's join intent adds the session to the subscriber
set whenever it was not already present. -/
theorem join_ignores_authorization (st : State) (reg : Registry)
    (uid sid : Nat) (room : String) (hroom : room ≠ "") :
    on_join reg (some uid) (some room) sid = join_room reg room sid ∧
      (can_post st uid room = false → (room, sid) ∉ reg.subs →
        (on_join reg (some uid) (some room) sid).subs
          = reg.subs ++ [(room, sid)]) := by
  constructor
  · show (if room = "" then reg else join_room reg room sid) = join_room reg room sid
    rw [if_neg hroom]
  · intro _ hnotmem
    show (if room = "" then reg else join_room reg room sid).subs
      = reg.subs ++ [(room, sid)]
    rw [if_neg hroom]
    unfold join_room
    rw [if_neg hnotmem]

theorem join_ignores_authorization_witness :
    "dm:7" ≠ "" ∧
      (on_join { subs := [] } (some 3) (some "dm:7") 42
          = join_room { subs := [] } "dm:7" 42 ∧
        (can_post stA 3 "dm:7" = false → ("dm:7", 42) ∉ ({ subs := [] } : Registry).subs →
          (on_join { subs := [] } (some 3) (some "dm:7") 42).subs
            = ({ subs := [] } : Registry).subs ++ [("dm:7", 42)])) :=
  ⟨by decide, join_ignores_authorization stA { subs := [] } 3 42 "dm:7" (by decide)⟩

/-! ### Claim C4 -/

/-- Claim C4 counterexample: the room string "server:1:x:5" is not of the
documented two-variant grammar (its third token is "x", not the literal
"channel"), yet Submit treats it as authorized for a member of channel 5's
server: a message row is persisted and a broadcast is emitted, because the
source never inspects the second and third colon-separated tokens. -/
theorem malformed_room_counterexample :
    (create_and_broadcast_message stA 1 "server:1:x:5" "hi" "text").1.messages
        ≠ [] ∧
      (create_and_broadcast_message stA 1 "server:1:x:5" "hi" "text").2
        ≠ none := by
  constructor
  · decide
  · decide

/-- The id parts of a room string are matched under SQLite numeric
affinity, so non-canonical spellings of a member's room id also authorize:
"dm:7.0", "dm: 7", "dm:+7", "dm:07" and "dm:7e0" all resolve to dm 7 and a
member's Submit on them persists a row, while spellings denoting no
integer ("dm:7.5", "dm:0x7", "dm:x") match no id. -/
theorem affinity_spellings_match_ids :
    parseRoom "dm:7.0" = some (RoomRef.dm 7) ∧
      parseRoom "dm: 7" = some (RoomRef.dm 7) ∧
      parseRoom "dm:+7" = some (RoomRef.dm 7) ∧
      parseRoom "dm:07" = some (RoomRef.dm 7) ∧
      parseRoom "dm:7e0" = some (RoomRef.dm 7) ∧
      parseRoom "dm:7.5" = none ∧
      parseRoom "dm:0x7" = none ∧
      parseRoom "dm:x" = none ∧
      (create_and_broadcast_message stA 1 "dm:7.0" "hi" "text").1.messages
        = [{ id := 1, channel_id := none, dm_id := some 7, sender_id := 1,
             content := some "hi", content_type := "text", ts := 10,
             deleted := false }] :=
  ⟨by decide, by decide, by decide, by decide, by decide, by decide,
    by decide, by decide, by decide⟩

/-- Claim C4 (amended): the boundary check actually implemented is looser
than the documented exact grammar in two ways: a `server:`-prefixed string
splitting into exactly four colon-separated parts is accepted with the
serverID position and the literal "channel" token never validated, and the
id parts may be ANY SQLite-numeric spelling of the integer id ('05',
'5.0', ' 5', '+5', '5e0'), not only canonical digit strings.  Every room
string rejected by THAT parse — wrong prefix, wrong arity, or an id text
denoting no integer id — is treated as unauthorized/empty: the call never
raises, Submit persists no row and broadcasts nothing, and History returns
no messages. -/
theorem unparseable_room_noop (st : State) (uid : Nat)
    (room content ctype : String) (h : parseRoom room = none) :
    create_and_broadcast_message st uid room content ctype = (st, none) ∧
      historyRows st uid room = [] := by
  have hcp : can_post st uid room = false := by unfold can_post; rw [h]
  exact ⟨submit_noop_of_not_can_post hcp, history_empty_of_not_can_post hcp⟩

theorem unparseable_room_noop_witness :
    parseRoom "server:1:channel" = none ∧
      (create_and_broadcast_message stA 1 "server:1:channel" "hi" "text"
          = (stA, none) ∧
        historyRows stA 1 "server:1:channel" = []) :=
  ⟨by decide,
    unparseable_room_noop stA 1 "server:1:channel" "hi" "text" (by decide)⟩

/-! ### Claim C7 -/

/-- Claim C7: a Delete issued by a user other than the stored sender of the
message is rejected silently: the call returns normally, every stored row
(in particular the target message and its deleted flag) is unchanged, and
no message_deleted event is broadcast. -/
theorem delete_by_nonsender_noop (st : State) (uid mid : Nat) (msg : Message)
    (hinv : MsgInv st) (hmem : msg ∈ st.messages) (hid : msg.id = mid)
    (hsender : msg.sender_id ≠ uid) :
    on_delete_message st uid mid = some (st, none) := by
  obtain ⟨_, hpw, _, _, _⟩ := hinv
  subst hid
  unfold on_delete_message
  split
  · rfl
  · rw [find?_by_id_eq hpw hmem]
    have hb : (msg.sender_id == uid) = false := beq_eq_false_iff_ne.mpr hsender
    simp [hb]

theorem delete_by_nonsender_noop_witness :
    MsgInv stMsg ∧ msgHi ∈ stMsg.messages ∧ msgHi.id = 1 ∧
      msgHi.sender_id ≠ 2 ∧ on_delete_message stMsg 2 1 = some (stMsg, none) :=
  ⟨by decide, by decide, rfl, by decide,
    delete_by_nonsender_noop stMsg 2 1 msgHi (by decide) (by decide) rfl
      (by decide)⟩

/-! ### Claim C10 -/

/-- Claim C10: a Submit whose user id matches no users row is silently
dropped before the authorization check is reached: for EVERY room string —
including ones the user id would be authorized for via a dangling
membership row — no message row is persisted and nothing is broadcast. -/
theorem submit_drops_unknown_user (st : State) (uid : Nat)
    (room content ctype : String)
    (h : st.users.find? (fun u => u.id == uid) = none) :
    create_and_broadcast_message st uid room content ctype = (st, none) := by
  unfold create_and_broadcast_message
  split
  · rfl
  · simp [h]

theorem submit_drops_unknown_user_witness :
    stB.users.find? (fun u => u.id == 99) = none ∧
      can_post stB 99 "dm:7" = true ∧
      create_and_broadcast_message stB 99 "dm:7" "hi" "text" = (stB, none) :=
  ⟨by decide, by decide,
    submit_drops_unknown_user stB 99 "dm:7" "hi" "text" (by decide)⟩

/-! ### Claim C3 -/

/-- `stA` with 101 messages (ids 1..101, strictly increasing timestamps)
from user 1 in dm 7. -/
def stC3 : State := { stA with
  messages := (List.range 101).map fun i =>
    { id := i + 1, channel_id := none, dm_id := some 7, sender_id := 1,
      content := some "m", content_type := "text", ts := i, deleted := false },
  nextMessageId := 102 }

/-- Claim C3 counterexample: dm 7 holds 101 non-purged messages, yet
History for its member returns the 100 OLDEST rows: the most recent
message (id 101, largest timestamp) is absent from the result while the
very first message (id 1) is present — `ORDER BY ts ASC LIMIT 100` keeps
the ascending head of the room's rows, not the most recent 100. -/
theorem history_not_most_recent_counterexample :
    stC3.messages.length = 101 ∧
      (historyRows stC3 1 "dm:7").length = 100 ∧
      ((historyRows stC3 1 "dm:7").map (fun r => r.id)).contains 101 = false ∧
      ((historyRows stC3 1 "dm:7").map (fun r => r.id)).contains 1 = true :=
  ⟨by decide, by decide, by decide, by decide⟩

/-- Claim C3 (amended): for an authorized user, History returns the first
(oldest) 100 rows of the room in timestamp-ascending order — not the most
recent 100 — including tombstoned rows; because deletion clears the stored
payload, no content is ever returned for a row with `deleted = true`. -/
theorem history_returns_oldest_100 (st : State) (uid : Nat) (room : String)
    (ref : RoomRef) (hinv : MsgInv st) (hroom : room ≠ "")
    (hparse : parseRoom room = some ref)
    (hauth : authorizedFor st uid ref = true) :
    historyRows st uid room
        = (joinUsers st (st.messages.filter (roomCond ref))).take 100 ∧
      List.Pairwise (fun a b : HistRow => a.ts ≤ b.ts)
        (historyRows st uid room) ∧
      (∀ r ∈ historyRows st uid room, r.deleted = true → r.content = none) := by
  obtain ⟨hts, _, _, htomb, _⟩ := hinv
  have hmain : historyRows st uid room
      = (joinUsers st (st.messages.filter (roomCond ref))).take 100 := by
    unfold historyRows
    rw [if_neg hroom, hparse]
    simp only [hauth, if_true]
    exact historyQuery_eq_of_sorted hts
  refine ⟨hmain, ?_, ?_⟩
  · rw [hmain]
    exact (pairwise_joinUsers (fun _ _ _ _ h => h) (hts.filter _)).sublist
      (List.take_sublist _ _)
  · intro r hr hdel
    obtain ⟨m, hm, u, hu, rfl⟩ := mem_historyRows hr
    exact (htomb m hm hdel).1

theorem history_returns_oldest_100_witness :
    MsgInv stC3 ∧ "dm:7" ≠ "" ∧ parseRoom "dm:7" = some (RoomRef.dm 7) ∧
      authorizedFor stC3 1 (RoomRef.dm 7) = true ∧
      (historyRows stC3 1 "dm:7"
          = (joinUsers stC3
              (stC3.messages.filter (roomCond (RoomRef.dm 7)))).take 100 ∧
        List.Pairwise (fun a b : HistRow => a.ts ≤ b.ts)
          (historyRows stC3 1 "dm:7") ∧
        (∀ r ∈ historyRows stC3 1 "dm:7", r.deleted = true →
          r.content = none)) :=
  ⟨by decide, by decide, by decide, by decide,
    history_returns_oldest_100 stC3 1 "dm:7" (RoomRef.dm 7) (by decide)
      (by decide) (by decide) (by decide)⟩

/-! ### Claim C9 -/

/-- Claim C9: per-room order equals insertion order: under the store
invariants (monotonic ids assigned in insertion order, nondecreasing
timestamps), any two rows returned by one History call appear in strictly
increasing id order — so whenever m1 was persisted before m2 (smaller
store-assigned id), every History response containing both returns m1
before m2. -/
theorem history_preserves_insertion_order (st : State) (uid : Nat)
    (room : String) (hinv : MsgInv st) :
    ∀ i j : Fin (historyRows st uid room).length, i < j →
      ((historyRows st uid room).get i).id
        < ((historyRows st uid room).get j).id := by
  obtain ⟨hts, hid, _, _, _⟩ := hinv
  have hpw : List.Pairwise (fun a b : HistRow => a.id < b.id)
      (historyRows st uid room) := by
    unfold historyRows
    split
    · exact List.Pairwise.nil
    · split
      · exact List.Pairwise.nil
      · split
        · rw [historyQuery_eq_of_sorted hts]
          exact (pairwise_joinUsers (fun _ _ _ _ h => h) (hid.filter _)).sublist
            (List.take_sublist _ _)
        · exact List.Pairwise.nil
  exact List.pairwise_iff_get.mp hpw

theorem history_preserves_insertion_order_witness :
    MsgInv stC3 ∧
      (∀ i j : Fin (historyRows stC3 1 "dm:7").length, i < j →
        ((historyRows stC3 1 "dm:7").get i).id
          < ((historyRows stC3 1 "dm:7").get j).id) :=
  ⟨by decide, history_preserves_insertion_order stC3 1 "dm:7" (by decide)⟩

/-! ### Delete: the sender-match execution path -/

/-- When the caller is the stored sender (and the ids are not falsy), the
delete runs to completion: the messages table is rewritten with the
tombstone update and some broadcast decision `b` is produced (the channel
row needed for room resolution exists by hypothesis, so no exception
escapes). -/
theorem on_delete_sender_run (st : State) (uid : Nat) (msg : Message)
    (hpw : List.Pairwise (fun a b : Message => a.id < b.id) st.messages)
    (hmem : msg ∈ st.messages)
    (hch : ∀ cid, msg.channel_id = some cid → ∃ ch ∈ st.channels, ch.id = cid)
    (hsender : msg.sender_id = uid)
    (hcond : (uid == 0 || msg.id == 0) = false) :
    ∃ b, on_delete_message st uid msg.id =
      some ({ st with messages := st.messages.map fun m =>
        if m.id == msg.id then
          { m with deleted := true, content := none, content_type := "text" }
        else m }, b) := by
  have hfind := find?_by_id_eq hpw hmem
  have hsb : (msg.sender_id == uid) = true := by simp [hsender]
  rcases hcc : msg.channel_id with _ | cid
  · rcases hdd : msg.dm_id with _ | did
    · exact ⟨none,
        by simp [on_delete_message, hcond, hfind, hsb, truthyN, hcc, hdd]⟩
    · by_cases hd0 : did = 0
      · exact ⟨none,
          by simp [on_delete_message, hcond, hfind, hsb, truthyN, hcc, hdd, hd0]⟩
      · exact ⟨some (Broadcast.message_deleted ("dm:" ++ toString did) msg.id),
          by simp [on_delete_message, hcond, hfind, hsb, truthyN, hcc, hdd, hd0]⟩
  · by_cases hc0 : cid = 0
    · rcases hdd : msg.dm_id with _ | did
      · exact ⟨none,
          by simp [on_delete_message, hcond, hfind, hsb, truthyN, hcc, hc0, hdd]⟩
      · by_cases hd0 : did = 0
        · exact ⟨none, by simp [on_delete_message, hcond, hfind, hsb, truthyN,
            hcc, hc0, hdd, hd0]⟩
        · exact ⟨some (Broadcast.message_deleted ("dm:" ++ toString did) msg.id),
            by simp [on_delete_message, hcond, hfind, hsb, truthyN, hcc, hc0,
              hdd, hd0]⟩
    · obtain ⟨ch, hchm, hcheq⟩ := hch cid hcc
      have hfs : (st.channels.find? fun c => c.id == cid).isSome :=
        List.find?_isSome.mpr ⟨ch, hchm, by simp [hcheq]⟩
      obtain ⟨ch', hch'⟩ := Option.isSome_iff_exists.mp hfs
      exact ⟨some (Broadcast.message_deleted
          ("server:" ++ toString ch'.server_id ++ ":channel:" ++ toString cid)
          msg.id),
        by simp [on_delete_message, hcond, hfind, hsb, truthyN, hcc, hc0, hch']⟩

/-! ### Claim C5 -/

/-- Claim C5: after a Delete issued by the stored sender of a message, the
call completes normally; the row keeps its id and metadata (sender,
timestamp, room references) but now has `deleted = true`, its content
payload cleared (`none`) and its content_type reset to the sentinel
"text"; every other row is untouched; and every subsequent History
response row carrying this id shows `deleted = true` with no content
payload. -/
theorem delete_by_sender_tombstones (st : State) (uid mid : Nat)
    (msg : Message) (hinv : MsgInv st) (hmem : msg ∈ st.messages)
    (hid : msg.id = mid) (hsender : msg.sender_id = uid) (huid : uid ≠ 0) :
    ∃ st' b, on_delete_message st uid mid = some (st', b) ∧
      ({ msg with deleted := true, content := none, content_type := "text" }
          ∈ st'.messages) ∧
      (∀ m' ∈ st'.messages, m'.id = mid →
        m'.deleted = true ∧ m'.content = none ∧ m'.content_type = "text" ∧
        m'.sender_id = msg.sender_id ∧ m'.ts = msg.ts ∧
        m'.channel_id = msg.channel_id ∧ m'.dm_id = msg.dm_id) ∧
      (∀ m' ∈ st.messages, m'.id ≠ mid → m' ∈ st'.messages) ∧
      (∀ uid' : Nat, ∀ room : String, ∀ r ∈ historyRows st' uid' room,
        r.id = mid → r.deleted = true ∧ r.content = none) := by
  obtain ⟨_, hpw, hid0, _, hch⟩ := hinv
  subst hid
  have hcond : (uid == 0 || msg.id == 0) = false := by
    simp [huid, hid0 msg hmem]
  obtain ⟨b, hrun⟩ :=
    on_delete_sender_run st uid msg hpw hmem (fun cid hc => hch msg hmem cid hc)
      hsender hcond
  refine ⟨_, b, hrun, ?_, ?_, ?_, ?_⟩
  · have h1 : (fun m => if m.id == msg.id then
        { m with deleted := true, content := none, content_type := "text" }
        else m) msg
          = { msg with deleted := true, content := none, content_type := "text" } := by
      simp
    have h2 := List.mem_map_of_mem (fun m => if m.id == msg.id then
      { m with deleted := true, content := none, content_type := "text" }
      else m) hmem
    rw [h1] at h2
    exact h2
  · intro m' hm' hid'
    obtain ⟨m0, hm0, rfl⟩ := List.mem_map.mp hm'
    by_cases h : m0.id = msg.id
    · have hm0e : m0 = msg := mem_unique_by_id hpw hm0 hmem h
      subst hm0e
      simp
    · have hfix : (if m0.id == msg.id then
          { m0 with deleted := true, content := none, content_type := "text" }
          else m0) = m0 := by
        simp [h]
      rw [hfix] at hid'
      exact absurd hid' h
  · intro m' hm' hne
    have hfix : (if m'.id == msg.id then
        { m' with deleted := true, content := none, content_type := "text" }
        else m') = m' := by
      simp [hne]
    rw [← hfix]
    exact List.mem_map_of_mem _ hm'
  · intro uid' room r hr hid'
    obtain ⟨m, hm, u, hu, rfl⟩ := mem_historyRows hr
    obtain ⟨m0, hm0, rfl⟩ := List.mem_map.mp hm
    by_cases h : m0.id = msg.id
    · have hm0e : m0 = msg := mem_unique_by_id hpw hm0 hmem h
      subst hm0e
      simp [mkRow]
    · have hfix : (if m0.id == msg.id then
          { m0 with deleted := true, content := none, content_type := "text" }
          else m0) = m0 := by
        simp [h]
      rw [hfix] at hid'
      exact absurd hid' h

theorem delete_by_sender_tombstones_witness :
    MsgInv stMsg ∧ msgHi ∈ stMsg.messages ∧ msgHi.id = 1 ∧
      msgHi.sender_id = 1 ∧ (1 : Nat) ≠ 0 ∧
      (∃ st' b, on_delete_message stMsg 1 1 = some (st', b) ∧
        ({ msgHi with deleted := true, content := none, content_type := "text" }
            ∈ st'.messages) ∧
        (∀ m' ∈ st'.messages, m'.id = 1 →
          m'.deleted = true ∧ m'.content = none ∧ m'.content_type = "text" ∧
          m'.sender_id = msgHi.sender_id ∧ m'.ts = msgHi.ts ∧
          m'.channel_id = msgHi.channel_id ∧ m'.dm_id = msgHi.dm_id) ∧
        (∀ m' ∈ stMsg.messages, m'.id ≠ 1 → m' ∈ st'.messages) ∧
        (∀ uid' : Nat, ∀ room : String, ∀ r ∈ historyRows st' uid' room,
          r.id = 1 → r.deleted = true ∧ r.content = none)) :=
  ⟨by decide, by decide, rfl, rfl, by decide,
    delete_by_sender_tombstones stMsg 1 1 msgHi (by decide) (by decide) rfl rfl
      (by decide)⟩

/-! ### Claim C6 -/

/-- `stA` with message 1 already tombstoned (`deleted = true`, content
cleared) in dm 7, sent by user 1. -/
def stTomb : State := { stA with
  messages := [{ id := 1, channel_id := none, dm_id := some 7, sender_id := 1,
                 content := none, content_type := "text", ts := 3,
                 deleted := true }],
  nextMessageId := 2 }

/-- Claim C6 counterexample: message 1 already has `deleted = true`, yet a
second Delete by its sender is not a no-op as claimed: the stored state is
unchanged, but a message_deleted event is broadcast AGAIN (the source never
checks the deleted flag before re-tombstoning and re-emitting). -/
theorem redelete_broadcasts_counterexample :
    (stTomb.messages.map fun m => m.deleted) = [true] ∧
      on_delete_message stTomb 1 1
        = some (stTomb, some (Broadcast.message_deleted "dm:7" 1)) :=
  ⟨by decide, by decide⟩

/-- Claim C6 (amended): deleting an absent message is a silent no-op (no
error, no state change, no broadcast).  Re-deleting an already-tombstoned
message as its sender also never errors and leaves every stored row
unchanged (the update rewrites the identical tombstone values) — but it is
not broadcast-free: the call completes with some broadcast decision, and
the counterexample shows a fresh message_deleted event is in fact emitted,
because the deleted flag is never consulted. -/
theorem delete_absent_or_repeat (st : State) (uid mid : Nat)
    (hinv : MsgInv st) :
    ((∀ msg ∈ st.messages, msg.id ≠ mid) →
      on_delete_message st uid mid = some (st, none)) ∧
    (∀ msg ∈ st.messages, msg.id = mid → msg.deleted = true →
      msg.sender_id = uid →
      ∃ b, on_delete_message st uid mid = some (st, b)) := by
  obtain ⟨_, hpw, hid0, htomb, hch⟩ := hinv
  constructor
  · intro habs
    unfold on_delete_message
    split
    · rfl
    · rw [List.find?_eq_none.mpr fun m hm => by
        simp only [beq_iff_eq]
        exact habs m hm]
  · intro msg hmem hid hdel hsender
    subst hid
    by_cases hcond : (uid == 0 || msg.id == 0) = true
    · exact ⟨none, by simp [on_delete_message, hcond]⟩
    · have hcond' : (uid == 0 || msg.id == 0) = false := by
        simpa using hcond
      obtain ⟨b, hrun⟩ :=
        on_delete_sender_run st uid msg hpw hmem
          (fun cid hc => hch msg hmem cid hc) hsender hcond'
      refine ⟨b, ?_⟩
      rw [hrun]
      have hmap : (st.messages.map fun m =>
          if m.id == msg.id then
            { m with deleted := true, content := none, content_type := "text" }
          else m) = st.messages := by
        apply list_map_id_of
        intro m hm
        by_cases h : m.id = msg.id
        · have heq : m = msg := mem_unique_by_id hpw hm hmem h
          subst heq
          obtain ⟨hco, hct⟩ := htomb m hm hdel
          rcases m with ⟨i, ch, dm, s, co, ct, t, dl⟩
          simp only [beq_self_eq_true, if_true]
          simp only at hco hct hdel
          simp [hco, hct, hdel]
        · simp [h]
      rw [hmap]

theorem delete_absent_or_repeat_witness :
    MsgInv stTomb ∧
      (((∀ msg ∈ stTomb.messages, msg.id ≠ 1) →
        on_delete_message stTomb 1 1 = some (stTomb, none)) ∧
      (∀ msg ∈ stTomb.messages, msg.id = 1 → msg.deleted = true →
        msg.sender_id = 1 →
        ∃ b, on_delete_message stTomb 1 1 = some (stTomb, b))) :=
  ⟨by decide, delete_absent_or_repeat stTomb 1 1 (by decide)⟩

/-! ### Claim C8 -/

/-- The pair-lookup predicate is symmetric in the two users. -/
theorem dmPairLook_swap (st : State) (u1 u2 : Nat) (d : Dm) :
    dmPairLook st u1 u2 d = dmPairLook st u2 u1 d := by
  unfold dmPairLook
  cases h1 : isDmMember st d.id u1 <;> cases h2 : isDmMember st d.id u2 <;>
    simp [h1, h2]

/-- An empty store. -/
def stEmpty : State :=
  { users := [], server_members := [], channels := [], dms := [],
    dm_members := [], messages := [], nextMessageId := 1, nextDmId := 1,
    clock := 0 }

/-- Claim C8 counterexample: the claim quantifies over ALL users u1, u2;
taking u1 = u2 = 1 on an empty store, EnsureDM returns no room id at all:
after the fresh dm row is inserted, the second member insert violates
UNIQUE(dm_id, user_id) and raises sqlite3.IntegrityError (modelled by
`none`), rolling the transaction back — so the two calls do not "return
the same roomID" and no dm room for the pair exists afterward. -/
theorem ensure_dm_self_counterexample :
    ensure_dm_between stEmpty 1 1 = none := by decide

/-- Claim C8 (amended): for DISTINCT users u1 ≠ u2 and a store satisfying
the dm-table invariants (dm ids and membership dm ids below the
AUTOINCREMENT counter; at most one non-group exactly-two-member dm row
matching the pair), EnsureDM is idempotent and symmetric: the call
succeeds with some state st' and room id, the order-swapped call on st'
returns the SAME room id and leaves st' unchanged, and exactly one
non-group dm room whose member set is exactly the unordered pair exists
afterward. -/
theorem ensure_dm_idempotent_symmetric (st : State) (u1 u2 : Nat)
    (hne : u1 ≠ u2) (hinv : DmInv st u1 u2) :
    ∃ st' did, ensure_dm_between st u1 u2 = some (st', did) ∧
      ensure_dm_between st' u2 u1 = some (st', did) ∧
      (st'.dms.filter (dmPairLook st' u1 u2)).length = 1 := by
  obtain ⟨hdms, hdmm, huniq⟩ := hinv
  cases hfind : st.dms.find? (dmPairLook st u1 u2) with
  | some d =>
    have hswap : dmPairLook st u2 u1 = dmPairLook st u1 u2 :=
      funext fun d' => (dmPairLook_swap st u1 u2 d').symm
    refine ⟨st, d.id, ?_, ?_, ?_⟩
    · unfold ensure_dm_between
      rw [hfind]
    · unfold ensure_dm_between
      rw [hswap, hfind]
    · have hd1 : d ∈ st.dms.filter (dmPairLook st u1 u2) :=
        List.mem_filter.mpr
          ⟨List.mem_of_find?_eq_some hfind, List.find?_some hfind⟩
      have hpos : 0 < (st.dms.filter (dmPairLook st u1 u2)).length :=
        List.length_pos.mpr (List.ne_nil_of_mem hd1)
      omega
  | none =>
    have hall := List.find?_eq_none.mp hfind
    have hu12 : (u1 == u2) = false := beq_eq_false_iff_ne.mpr hne
    have hnotin1 :
        (st.dm_members.any fun p => p.1 == st.nextDmId && p.2 == u1) = false :=
      List.any_eq_false.mpr fun p hp => by
        have := hdmm p hp
        simp only [Bool.and_eq_true, beq_iff_eq]
        rintro ⟨h1, _⟩
        omega
    have hnotin2 :
        ((st.dm_members ++ [(st.nextDmId, u1)]).any
          fun p => p.1 == st.nextDmId && p.2 == u2) = false := by
      rw [List.any_append]
      have h2 :
          (st.dm_members.any fun p => p.1 == st.nextDmId && p.2 == u2) = false :=
        List.any_eq_false.mpr fun p hp => by
          have := hdmm p hp
          simp only [Bool.and_eq_true, beq_iff_eq]
          rintro ⟨h1, _⟩
          omega
      simp [h2, hu12]
    set D : Dm := { id := st.nextDmId, is_group := false } with hD
    set stF : State := { st with
      dms := st.dms ++ [D],
      nextDmId := st.nextDmId + 1,
      dm_members := st.dm_members ++ [(st.nextDmId, u1)] ++ [(st.nextDmId, u2)] }
      with hstF
    -- the predicate over the new state restricted to the old rows is
    -- unchanged: the two fresh member rows carry the fresh dm id
    have hdlt : ∀ d ∈ st.dms,
        dmPairLook stF u1 u2 d = dmPairLook st u1 u2 d := by
      intro d hd
      have hne' : (st.nextDmId == d.id) = false :=
        beq_eq_false_iff_ne.mpr (by have := hdms d hd; omega)
      simp [hstF, hD, dmPairLook, isDmMember, List.any_append,
        List.filter_append, hne']
    have hfilter_nil :
        st.dm_members.filter (fun p => p.1 == st.nextDmId) = [] :=
      List.filter_eq_nil_iff.mpr fun p hp => by
        have := hdmm p hp
        simp only [beq_iff_eq]
        omega
    have hDtrue : dmPairLook stF u1 u2 D = true := by
      simp [hstF, hD, dmPairLook, isDmMember, List.any_append,
        List.filter_append, hfilter_nil]
    have hnone : List.find? (dmPairLook stF u1 u2) st.dms = none :=
      List.find?_eq_none.mpr fun d hd => by
        rw [hdlt d hd]
        exact hall d hd
    have hproj : stF.dms = st.dms ++ [D] := by rw [hstF]
    refine ⟨stF, st.nextDmId, ?_, ?_, ?_⟩
    · unfold ensure_dm_between
      rw [hfind]
      simp only [hnotin1, Bool.false_eq_true, if_false, List.append_assoc,
        List.singleton_append]
      simp [hstF, hD, hnotin2]
    · unfold ensure_dm_between
      have hswapF : dmPairLook stF u2 u1 = dmPairLook stF u1 u2 :=
        funext fun d' => (dmPairLook_swap stF u1 u2 d').symm
      rw [hswapF]
      have hfindF : stF.dms.find? (dmPairLook stF u1 u2) = some D := by
        rw [hproj, find?_append_none hnone]
        exact List.find?_cons_of_pos _ hDtrue
      rw [hfindF]
    · have hfilter_old : st.dms.filter (dmPairLook stF u1 u2) = [] :=
        List.filter_eq_nil_iff.mpr fun d hd => by
          rw [hdlt d hd]
          exact hall d hd
      rw [hproj, List.filter_append, hfilter_old]
      simp [hDtrue]

theorem ensure_dm_idempotent_symmetric_witness :
    (1 : Nat) ≠ 2 ∧ DmInv stA 1 2 ∧
      (∃ st' did, ensure_dm_between stA 1 2 = some (st', did) ∧
        ensure_dm_between st' 2 1 = some (st', did) ∧
        (st'.dms.filter (dmPairLook st' 1 2)).length = 1) :=
  ⟨by decide, by decide, ensure_dm_idempotent_symmetric stA 1 2 (by decide)
    (by decide)⟩

end Minerium
